import Mathlib

/-!
# Verification of the Android PDF export plugin's resource-inlining pipeline

A shallow embedding of `src/main.ts` (the current plugin version, lines 1-405):
the DOM working tree is a rose tree of elements, attribute and style maps are
association lists, promises are `Except`-valued computations, and the host
environment (vault, metadata cache, network fetch, `decodeURIComponent`,
`FileReader`) is a record of explicit outcome functions.  Machine-level
strings are Lean `String`s; byte buffers are `List Nat` with an explicit
`< 256` bound where byte identity matters.
-/

set_option maxHeartbeats 1000000

namespace AndroidPdf

/-! ## Association-list maps (DOM attribute and inline-style stores)

`getA`/`setA`/`removeA` model `getAttribute`/`setAttribute`/`removeAttribute`
(and, reused, the `style` property map). -/

def getA : List (String × String) → String → Option String
  | [], _ => none
  | (k, v) :: rest, key => if k = key then some v else getA rest key

def setA : List (String × String) → String → String → List (String × String)
  | [], key, val => [(key, val)]
  | (k, v) :: rest, key, val =>
    if k = key then (key, val) :: rest else (k, v) :: setA rest key val

def removeA : List (String × String) → String → List (String × String)
  | [], _ => []
  | (k, v) :: rest, key =>
    if k = key then removeA rest key else (k, v) :: removeA rest key

theorem getA_setA_same (l : List (String × String)) (k v : String) :
    getA (setA l k v) k = some v := by
  induction l with
  | nil => simp [setA, getA]
  | cons kv rest ih =>
    obtain ⟨k', v'⟩ := kv
    by_cases h : k' = k <;> simp [setA, getA, h, ih]

theorem getA_setA_other (l : List (String × String)) (k v k' : String)
    (h : k' ≠ k) : getA (setA l k v) k' = getA l k' := by
  have h2 : k ≠ k' := Ne.symm h
  induction l with
  | nil => simp [setA, getA, h2]
  | cons kv rest ih =>
    obtain ⟨k0, v0⟩ := kv
    by_cases h0 : k0 = k
    · subst h0
      simp [setA, getA, h2]
    · simp only [setA, if_neg h0, getA]
      by_cases h1 : k0 = k' <;> simp [h1, ih]

theorem getA_removeA_same (l : List (String × String)) (k : String) :
    getA (removeA l k) k = none := by
  induction l with
  | nil => simp [removeA, getA]
  | cons kv rest ih =>
    obtain ⟨k0, v0⟩ := kv
    by_cases h : k0 = k <;> simp [removeA, getA, h, ih]

theorem getA_removeA_other (l : List (String × String)) (k k' : String)
    (h : k' ≠ k) : getA (removeA l k) k' = getA l k' := by
  have h2 : k ≠ k' := Ne.symm h
  induction l with
  | nil => simp [removeA, getA]
  | cons kv rest ih =>
    obtain ⟨k0, v0⟩ := kv
    by_cases h0 : k0 = k
    · subst h0
      simp [removeA, getA, h2, ih]
    · simp only [removeA, if_neg h0, getA]
      by_cases h1 : k0 = k' <;> simp [h1, ih]

/-! ## JS `String.prototype.startsWith`

Modeled at the character-list level (exact JS semantics for the strings this
program compares: literal ASCII prefixes `"data:"` and `"http"`). -/

def strStartsWith (s p : String) : Bool := p.data.isPrefixOf s.data

theorem strStartsWith_http_ne_empty (s : String)
    (h : strStartsWith s "http" = true) : s ≠ "" := by
  intro he
  subst he
  simp [strStartsWith, List.isPrefixOf] at h

theorem strStartsWith_http_not_data (s : String)
    (h : strStartsWith s "http" = true) : strStartsWith s "data:" = false := by
  unfold strStartsWith at *
  cases hs : s.data with
  | nil => rw [hs] at h; exact absurd h (by decide)
  | cons c cs =>
    rw [hs] at h
    rw [show ("http" : String).data = ['h', 't', 't', 'p'] from rfl] at h
    rw [show ("data:" : String).data = ['d', 'a', 't', 'a', ':'] from rfl]
    simp only [List.isPrefixOf, Bool.and_eq_true, beq_iff_eq] at h
    obtain ⟨h1, -⟩ := h
    subst h1
    simp [List.isPrefixOf]

/-! ## Base64 / data URI

`arrayBufferToBase64Async` in the source wraps the platform
`FileReader.readAsDataURL` primitive.  `readAsDataURL` is modeled per its web
specification: a data URI whose payload is the RFC 4648 base64 encoding of the
blob's bytes, prefixed by the blob's MIME type.  The decoder is a spec-side
definition used only to state the round-trip property. -/

def b64Chars : List Char :=
  "ABCDEFGHIJKLMNOPQRSTUVWXYZabcdefghijklmnopqrstuvwxyz0123456789+/".toList

def sixToChar (n : Nat) : Char := b64Chars.getD n 'A'

def idxIn (c : Char) : List Char → Nat → Option Nat
  | [], _ => none
  | d :: ds, i => if d = c then some i else idxIn c ds (i + 1)

def charToSix (c : Char) : Option Nat := idxIn c b64Chars 0

theorem charToSix_sixToChar : ∀ n, n < 64 → charToSix (sixToChar n) = some n := by
  decide

theorem sixToChar_ne_pad : ∀ n, n < 64 → sixToChar n ≠ '=' := by
  decide

/-- Encode a byte list into base64 characters, three bytes (one chunk) at a
time, padding the final partial chunk with `=`. -/
def encodeChunks : List Nat → List Char
  | [] => []
  | [a] => [sixToChar (a / 4), sixToChar (a % 4 * 16), '=', '=']
  | [a, b] =>
    [sixToChar (a / 4), sixToChar (a % 4 * 16 + b / 16), sixToChar (b % 16 * 4), '=']
  | a :: b :: c :: rest =>
    sixToChar (a / 4) :: sixToChar (a % 4 * 16 + b / 16) ::
      sixToChar (b % 16 * 4 + c / 64) :: sixToChar (c % 64) :: encodeChunks rest

/-- Decode one four-character base64 chunk (respecting `=` padding). -/
def decode4 (w x y z : Char) : Option (List Nat) :=
  match charToSix w, charToSix x with
  | some a, some b =>
    if y = '=' then some [a * 4 + b / 16]
    else
      match charToSix y with
      | some c =>
        if z = '=' then some [a * 4 + b / 16, b % 16 * 16 + c / 4]
        else
          match charToSix z with
          | some d => some [a * 4 + b / 16, b % 16 * 16 + c / 4, c % 4 * 64 + d]
          | none => none
      | none => none
  | _, _ => none

def decodeChunks : List Char → Option (List Nat)
  | [] => some []
  | w :: x :: y :: z :: rest => do
    let bytes ← decode4 w x y z
    let more ← decodeChunks rest
    pure (bytes ++ more)
  | _ => none

theorem addMulDiv (m r s : Nat) (hm : 0 < m) (hs : s < m) : (r * m + s) / m = r := by
  rw [Nat.mul_comm r m, Nat.mul_add_div hm, Nat.div_eq_of_lt hs]
  omega

theorem addMulMod (m r s : Nat) (hs : s < m) : (r * m + s) % m = s := by
  rw [Nat.mul_comm r m, Nat.mul_add_mod]
  exact Nat.mod_eq_of_lt hs

theorem decodeChunks_encodeChunks :
    ∀ l : List Nat, (∀ b ∈ l, b < 256) → decodeChunks (encodeChunks l) = some l := by
  intro l
  induction l using encodeChunks.induct with
  | case1 => intro _; rfl
  | case2 a =>
    intro hb
    have ha : a < 256 := hb a (by simp)
    have h1 : a / 4 < 64 := by omega
    have h2 : a % 4 * 16 < 64 := by omega
    have e1 : a / 4 * 4 + a % 4 * 16 / 16 = a := by
      have := addMulDiv 16 (a % 4) 0 (by omega) (by omega)
      simp only [Nat.add_zero] at this
      rw [this]
      omega
    simp [encodeChunks, decodeChunks, decode4,
      charToSix_sixToChar _ h1, charToSix_sixToChar _ h2, e1]
    omega
  | case3 a b =>
    intro hb
    have ha : a < 256 := hb a (by simp)
    have hbb : b < 256 := hb b (by simp)
    have h1 : a / 4 < 64 := by omega
    have h2 : a % 4 * 16 + b / 16 < 64 := by omega
    have h3 : b % 16 * 4 < 64 := by omega
    have e1 : a / 4 * 4 + (a % 4 * 16 + b / 16) / 16 = a := by
      rw [addMulDiv 16 (a % 4) (b / 16) (by omega) (by omega)]
      omega
    have e2 : (a % 4 * 16 + b / 16) % 16 * 16 + b % 16 * 4 / 4 = b := by
      rw [addMulMod 16 (a % 4) (b / 16) (by omega)]
      have := addMulDiv 4 (b % 16) 0 (by omega) (by omega)
      simp only [Nat.add_zero] at this
      rw [this]
      omega
    simp [encodeChunks, decodeChunks, decode4,
      charToSix_sixToChar _ h1, charToSix_sixToChar _ h2, charToSix_sixToChar _ h3,
      sixToChar_ne_pad _ h3, e1, e2]
    rw [addMulMod 16 (a % 4) (b / 16) (by omega)]
    omega
  | case4 a b c rest ih =>
    intro hb
    have ha : a < 256 := hb a (by simp)
    have hbb : b < 256 := hb b (by simp)
    have hc : c < 256 := hb c (by simp)
    have h1 : a / 4 < 64 := by omega
    have h2 : a % 4 * 16 + b / 16 < 64 := by omega
    have h3 : b % 16 * 4 + c / 64 < 64 := by omega
    have h4 : c % 64 < 64 := by omega
    have hrest : ∀ x ∈ rest, x < 256 := fun x hx => hb x (by simp [hx])
    have e1 : a / 4 * 4 + (a % 4 * 16 + b / 16) / 16 = a := by
      rw [addMulDiv 16 (a % 4) (b / 16) (by omega) (by omega)]
      omega
    have e2 : (a % 4 * 16 + b / 16) % 16 * 16 + (b % 16 * 4 + c / 64) / 4 = b := by
      rw [addMulMod 16 (a % 4) (b / 16) (by omega),
        addMulDiv 4 (b % 16) (c / 64) (by omega) (by omega)]
      omega
    have e3 : (b % 16 * 4 + c / 64) % 4 * 64 + c % 64 = c := by
      rw [addMulMod 4 (b % 16) (c / 64) (by omega)]
      omega
    simp [encodeChunks, decodeChunks, decode4,
      charToSix_sixToChar _ h1, charToSix_sixToChar _ h2, charToSix_sixToChar _ h3,
      charToSix_sixToChar _ h4,
      sixToChar_ne_pad _ h3, sixToChar_ne_pad _ h4, ih hrest, e1, e2, e3]

def base64Encode (bytes : List Nat) : String := String.mk (encodeChunks bytes)

/-- Modelled per the web platform specification of `FileReader.readAsDataURL`
(an external collaborator, not repository code): a data URI carrying the
blob's MIME type and the base64 encoding of its bytes. -/
def readAsDataURL (bytes : List Nat) (mimeType : String) : String :=
  "data:" ++ mimeType ++ ";base64," ++ base64Encode bytes

/-- `arrayBufferToBase64Async` from the source: wraps the reader in a promise,
resolving with `reader.result` when it is non-empty and rejecting otherwise
(or when the reader errors, modeled by `readerOk = false`). -/
def arrayBufferToBase64Async (readerOk : Bool) (buffer : List Nat)
    (mimeType : String) : Except Unit String :=
  if readerOk then
    let r := readAsDataURL buffer mimeType
    if r = "" then .error () else .ok r
  else .error ()

theorem readAsDataURL_ne_empty (bytes : List Nat) (mimeType : String) :
    readAsDataURL bytes mimeType ≠ "" := by
  intro h
  have hlen := congrArg String.length h
  simp only [readAsDataURL, String.length_append] at hlen
  simp [show ("data:" : String).length = 5 from rfl] at hlen

theorem arrayBufferToBase64Async_ok (buffer : List Nat) (mimeType : String) :
    arrayBufferToBase64Async true buffer mimeType =
      .ok (readAsDataURL buffer mimeType) := by
  simp [arrayBufferToBase64Async, readAsDataURL_ne_empty buffer mimeType]

/-! ## DOM working tree

A rose tree of elements.  `tag` is the element name, `attrs` the attribute
map, `style` the inline-style map, `text` the `innerText` content. -/

inductive Element where
  | mk (tag : String) (attrs : List (String × String))
       (style : List (String × String)) (text : String)
       (children : List Element)

def Element.tag : Element → String
  | .mk t _ _ _ _ => t

def Element.attrs : Element → List (String × String)
  | .mk _ a _ _ _ => a

def Element.style : Element → List (String × String)
  | .mk _ _ s _ _ => s

def Element.textOf : Element → String
  | .mk _ _ _ x _ => x

def Element.children : Element → List Element
  | .mk _ _ _ _ c => c

@[simp] theorem Element.tag_mk (t : String) (a s : List (String × String))
    (x : String) (c : List Element) : (Element.mk t a s x c).tag = t := rfl

@[simp] theorem Element.attrs_mk (t : String) (a s : List (String × String))
    (x : String) (c : List Element) : (Element.mk t a s x c).attrs = a := rfl

@[simp] theorem Element.style_mk (t : String) (a s : List (String × String))
    (x : String) (c : List Element) : (Element.mk t a s x c).style = s := rfl

@[simp] theorem Element.textOf_mk (t : String) (a s : List (String × String))
    (x : String) (c : List Element) : (Element.mk t a s x c).textOf = x := rfl

@[simp] theorem Element.children_mk (t : String) (a s : List (String × String))
    (x : String) (c : List Element) : (Element.mk t a s x c).children = c := rfl

/-- Custom induction: to prove a property of every element it suffices to
prove it for a node assuming it for all children. -/
theorem Element.indOn {P : Element → Prop}
    (h : ∀ t a s x c, (∀ e ∈ c, P e) → P (.mk t a s x c)) : ∀ e, P e
  | .mk t a s x c =>
    h t a s x c (fun e he =>
      have : sizeOf e < sizeOf (Element.mk t a s x c) := by
        have h1 := List.sizeOf_lt_of_mem he
        simp only [Element.mk.sizeOf_spec]
        omega
      Element.indOn h e)
termination_by e => sizeOf e

/-- All nodes of the tree, root first, document order. -/
def allNodes : Element → List Element
  | .mk t a s x c => .mk t a s x c :: (c.attach.map (fun d => allNodes d.1)).flatten
termination_by e => sizeOf e
decreasing_by
  have h1 := List.sizeOf_lt_of_mem d.2
  simp only [Element.mk.sizeOf_spec]
  omega

/-- Snapshot-then-replace traversal, as performed by
`Array.from(container.querySelectorAll(sel))` followed by `el.replaceWith(x)`
per match: a matching node is replaced wholesale (its replacement is not
re-scanned, and matches inside the discarded subtree are detached before
their own `replaceWith`, which is then a no-op). -/
def rewriteTop (p : Element → Bool) (r : Element → Element) : Element → Element
  | .mk t a s x c =>
    if p (.mk t a s x c) then r (.mk t a s x c)
    else .mk t a s x (c.attach.map (fun d => rewriteTop p r d.1))
termination_by e => sizeOf e
decreasing_by
  have h1 := List.sizeOf_lt_of_mem d.2
  simp only [Element.mk.sizeOf_spec]
  omega

/-- Snapshot-then-mutate-in-place traversal, as performed by
`querySelectorAll('img')` followed by per-node attribute mutation: every
matching node in the snapshot (nested ones included) has its shallow fields
rewritten; the tree structure is untouched. -/
def rewriteAll (p : Element → Bool) (r : Element → Element) : Element → Element
  | .mk t a s x c =>
    let e' := if p (.mk t a s x c) then r (.mk t a s x c) else .mk t a s x c
    .mk e'.tag e'.attrs e'.style e'.textOf (c.attach.map (fun d => rewriteAll p r d.1))
termination_by e => sizeOf e
decreasing_by
  have h1 := List.sizeOf_lt_of_mem d.2
  simp only [Element.mk.sizeOf_spec]
  omega

/-! ## Host environment for image resolution (`embedSingleImage`)

`resolveLink` models `metadataCache.getFirstLinkpathDest` (the active file's
path is baked in), `vaultFiles` models `vault.getFiles()` (with per-file
content standing for `vault.readBinary`), `fetchUrl` models Obsidian's
`requestUrl` (which rejects on network error or non-2xx status), `decodeURI`
models `decodeURIComponent` (which throws `URIError` on malformed input), and
`readerOk` models whether the `FileReader` fires `onloadend` with a result
(`false` = `onerror` or an empty result, rejecting the conversion promise). -/

structure TFile where
  path : String
  name : String
  extension : String
  content : List Nat

structure RemoteResponse where
  body : List Nat
  headers : List (String × String)

structure ImgEnv where
  resolveLink : String → Option TFile
  vaultFiles : List TFile
  fetchUrl : String → Except Unit RemoteResponse
  decodeURI : String → Except Unit String
  readerOk : Bool

/-! ## `embedSingleImage` and helpers (src/main.ts lines 213-290) -/

/-- JS `String.prototype.split` with a single-character separator, modeled
structurally over the character list (`"".split(x) = [""]`, separators at the
ends produce empty segments, exactly as in JS). -/
def splitOnChar (sep : Char) : List Char → List (List Char)
  | [] => [[]]
  | c :: cs =>
    let r := splitOnChar sep cs
    if c = sep then [] :: r
    else
      match r with
      | [] => [[c]]
      | h :: t => (c :: h) :: t

def splitStr (s : String) (sep : Char) : List String :=
  (splitOnChar sep s.data).map String.mk

/-- JS `String.prototype.toLowerCase`, per character. -/
def lowerStr (s : String) : String := String.mk (s.data.map Char.toLower)

def getMimeType (extension : String) : String :=
  match lowerStr extension with
  | "jpg" => "image/jpeg"
  | "jpeg" => "image/jpeg"
  | "webp" => "image/webp"
  | "gif" => "image/gif"
  | "svg" => "image/svg+xml"
  | "bmp" => "image/bmp"
  | _ => "image/png"

/-- `decodedSrc.split('?')[0]` then `.split('/').pop() || ''`. -/
def deriveLinktext (decoded : String) : String :=
  (splitStr ((splitStr decoded '?').headD "") '/').getLastD ""

/-- The two-step local lookup: `getFirstLinkpathDest`, then (only when that
fails and the link text is non-empty) a linear scan of all vault files for an
exact name match. -/
def resolveLocalFile (env : ImgEnv) (linktext : String) : Option TFile :=
  match env.resolveLink linktext with
  | some f => some f
  | none =>
    if linktext = "" then none
    else env.vaultFiles.find? (fun f => f.name = linktext)

/-- Link-text derivation: the raw src for embed hints, otherwise the decoded
src's basename (decoding may throw). -/
def lookupLinktext (env : ImgEnv) (isEmbed : Bool) (src : String) : Except Unit String :=
  if isEmbed then .ok src
  else
    match env.decodeURI src with
    | .ok d => .ok (deriveLinktext d)
    | .error err => .error err

def localFile (env : ImgEnv) (isEmbed : Bool) (src : String) : Except Unit (Option TFile) :=
  match lookupLinktext env isEmbed src with
  | .ok lt => .ok (resolveLocalFile env lt)
  | .error err => .error err

/-- `response.headers['content-type'] || 'image/png'`: the JS `||` falls back
on an absent header and also on a present-but-empty one. -/
def remoteMime (resp : RemoteResponse) : String :=
  match getA resp.headers "content-type" with
  | some m => if m = "" then "image/png" else m
  | none => "image/png"

/-- The per-node failure marker: `img.alt = ...; img.style.border = ...`. -/
def markFailed (e : Element) (src : String) : Element :=
  .mk e.tag (setA e.attrs "alt" ("[Image Missing: " ++ src ++ "]"))
    (setA e.style "border" "1px solid red") e.textOf e.children

/-- The success rewrite: set `src` to the data URI, then remove `srcset`,
`data-src`, `data-is-embed` and `sizes`. -/
def applyDataURI (e : Element) (uri : String) : Element :=
  .mk e.tag
    (removeA (removeA (removeA (removeA (setA e.attrs "src" uri) "srcset")
      "data-src") "data-is-embed") "sizes")
    e.style e.textOf e.children

/-- The `try` block of `embedSingleImage`.  Returns the list of issued fetch
URLs paired with either the mutated node or a thrown error.  All node
mutations happen after the last throwing operation, so a throw leaves the
node untouched. -/
def embedTry (env : ImgEnv) (e : Element) (src : String) :
    List String × Except Unit Element :=
  let isEmbed := getA e.attrs "data-is-embed" == some "true"
  match localFile env isEmbed src with
  | .error err => ([], .error err)
  | .ok fileOpt =>
    let step : List String × Except Unit (Option (List Nat) × String) :=
      match fileOpt with
      | some f => ([], .ok (some f.content, getMimeType f.extension))
      | none =>
        if isEmbed = false && strStartsWith src "http" then
          match env.fetchUrl src with
          | .ok resp => ([src], .ok (some resp.body, remoteMime resp))
          | .error err => ([src], .error err)
        else ([], .ok (none, "image/png"))
    match step with
    | (tr, .error err) => (tr, .error err)
    | (tr, .ok (some buffer, mime)) =>
      match arrayBufferToBase64Async env.readerOk buffer mime with
      | .ok uri => (tr, .ok (applyDataURI e uri))
      | .error err => (tr, .error err)
    | (tr, .ok (none, _)) => (tr, .ok (markFailed e src))

/-- `embedSingleImage`: early return on a missing/empty/already-inline src,
otherwise the `try` block with a catch-all that logs and returns.  The
result `Except` is the state of the async function's promise; the fetch-URL
list records the network requests issued. -/
def embedSingleImage (env : ImgEnv) (e : Element) :
    List String × Except Unit Element :=
  match getA e.attrs "src" with
  | none => ([], .ok e)
  | some src =>
    if src = "" || strStartsWith src "data:" then ([], .ok e)
    else
      match embedTry env e src with
      | (tr, .ok e') => (tr, .ok e')
      | (tr, .error _) => (tr, .ok e)

/-- The settled node: the promise value (the catch guarantees `.ok`; the
`.error` arm is unreachable, as proved below). -/
def embedOut (env : ImgEnv) (e : Element) : Element :=
  match (embedSingleImage env e).2 with
  | .ok e' => e'
  | .error _ => e

/-! ## `processImages` (src/main.ts lines 182-208) -/

def isImg (e : Element) : Bool := e.tag = "img"

def imageExtensions : List String :=
  ["png", "jpg", "jpeg", "gif", "bmp", "svg", "webp", "heic"]

def classTokens (e : Element) : List String :=
  splitStr ((getA e.attrs "class").getD "") ' ' 

def isInternalEmbedSpan (e : Element) : Bool :=
  e.tag = "span" && (classTokens e).contains "internal-embed"

/-- `src.split('.').pop()?.toLowerCase()`: the substring after the last `.`,
which is the whole string when no `.` occurs. -/
def extOf (src : String) : String := lowerStr ((splitStr src '.').getLastD "")

/-- An embed marker the loop replaces: an `internal-embed` span with a
non-empty src whose extension (JS truthiness: non-empty) is recognized. -/
def recognizedEmbed (e : Element) : Bool :=
  isInternalEmbedSpan e &&
    (match getA e.attrs "src" with
     | none => false
     | some src =>
       if src = "" then false
       else
         let ext := extOf src
         if ext = "" then false else imageExtensions.contains ext)

/-- The synthesized `<img>`: same src, `data-is-embed` flag, 100% max width. -/
def embedToImg (e : Element) : Element :=
  .mk "img" [("src", (getA e.attrs "src").getD ""), ("data-is-embed", "true")]
    [("max-width", "100%")] "" []

def normalizeEmbeds : Element → Element := rewriteTop recognizedEmbed embedToImg

/-- Step 2 of `processImages`: every `<img>` in the post-normalization tree is
rewritten in place by its own resolution task. -/
def processImages (env : ImgEnv) (e : Element) : Element :=
  rewriteAll isImg (embedOut env) (normalizeEmbeds e)

/-- Document-order `querySelectorAll('img')` snapshot. -/
def collectImgs : Element → List Element
  | .mk t a s x c =>
    (if isImg (.mk t a s x c) then [Element.mk t a s x c] else []) ++
      (c.attach.map (fun d => collectImgs d.1)).flatten
termination_by e => sizeOf e
decreasing_by
  have h1 := List.sizeOf_lt_of_mem d.2
  simp only [Element.mk.sizeOf_spec]
  omega

/-- `Promise.all`: fulfills with the list of values when every promise
fulfills, rejects as soon as any member rejects. -/
def promiseAll {α : Type} : List (Except Unit α) → Except Unit (List α)
  | [] => .ok []
  | .ok a :: rest =>
    match promiseAll rest with
    | .ok l => .ok (a :: l)
    | .error err => .error err
  | .error err :: _ => .error err

/-- The `await Promise.all(promises)` join over the per-image tasks. -/
def processImagesJoin (env : ImgEnv) (e : Element) : Except Unit (List Element) :=
  promiseAll ((collectImgs (normalizeEmbeds e)).map (fun i => (embedSingleImage env i).2))

/-! ## `sanitizeElements` (src/main.ts lines 314-324) -/

def isMedia (e : Element) : Bool :=
  e.tag = "video" || e.tag = "audio" || e.tag = "iframe"

def placeholderDiv : Element :=
  .mk "div" []
    [("border", "1px dashed #ccc"), ("padding", "10px"), ("color", "#888"),
      ("text-align", "center")]
    "[Media/Embed not supported in PDF Export]" []

def sanitizeElements : Element → Element := rewriteTop isMedia (fun _ => placeholderDiv)

/-! ## `createUniqueExportFolder` (src/main.ts lines 159-176)

The store's `exists` primitive is a boolean predicate on names; the `while`
loop is embedded with explicit fuel (a real vault holds finitely many
folders, so some probe is free and enough fuel makes the fuel irrelevant,
as the theorems below state). -/

def sanitizeBasename (basename : String) : String :=
  String.mk (basename.data.map (fun c => if c.isAlpha || c.isDigit then c else '_'))

def probeSuffix (ex : String → Bool) (folderName : String) : Nat → Nat → Option Nat
  | _, 0 => none
  | i, fuel + 1 =>
    if ex (folderName ++ "-" ++ toString i) then probeSuffix ex folderName (i + 1) fuel
    else some i

def createUniqueExportFolder (ex : String → Bool) (basename : String) (fuel : Nat) :
    Option String :=
  let safeBasename := sanitizeBasename basename
  let folderName := safeBasename ++ "-Export"
  if ex folderName = false then some folderName
  else
    match probeSuffix ex folderName 1 fuel with
    | some i => some (folderName ++ "-" ++ toString i)
    | none => none

/-! ## `generatePdf` orchestration (src/main.ts lines 97-137)

Only the control flow matters for the container-lifetime claim: each step's
outcome is supplied by the environment (the detailed step semantics are the
functions above), and the trace records the DOM container effects. -/

inductive PdfEffect where
  | notice (msg : String)
  | createContainer
  | removeContainer
  | consoleError
deriving DecidableEq

structure PdfEnv where
  activeFile : Option String
  renderResult : Except Unit Unit
  folderResult : Except Unit String
  processResult : Except Unit Unit
  saveResult : Except Unit Unit

/-- The `try` block body of `generatePdf`: render, create folder, process
images (with sanitization and templating, which do not throw), save. -/
def pdfTryBody (env : PdfEnv) : Except Unit Unit :=
  match env.renderResult with
  | .error err => .error err
  | .ok _ =>
    match env.folderResult with
    | .error err => .error err
    | .ok _ =>
      match env.processResult with
      | .error err => .error err
      | .ok _ => env.saveResult

/-- `generatePdf`: early return without touching the DOM when there is no
active file; otherwise create the hidden container, run the pipeline, catch
any failure with a single notice, and remove the container in `finally`. -/
def generatePdf (env : PdfEnv) : List PdfEffect :=
  match env.activeFile with
  | none => [.notice "No active file selected."]
  | some _ =>
    [.notice "Generating HTML for printing...", .createContainer] ++
      (match pdfTryBody env with
       | .ok _ => []
       | .error _ => [.consoleError, .notice "PDF Export failed. Check console for details."]) ++
      [.removeContainer]

/-! ## Unfolding lemmas for the tree traversals -/

theorem rewriteTop_mk (p : Element → Bool) (r : Element → Element)
    (t : String) (a s : List (String × String)) (x : String) (c : List Element) :
    rewriteTop p r (.mk t a s x c) =
      if p (.mk t a s x c) then r (.mk t a s x c)
      else .mk t a s x (c.map (rewriteTop p r)) := by
  rw [rewriteTop]
  simp [List.attach_map_coe]

theorem rewriteAll_mk (p : Element → Bool) (r : Element → Element)
    (t : String) (a s : List (String × String)) (x : String) (c : List Element) :
    rewriteAll p r (.mk t a s x c) =
      (let e' := if p (.mk t a s x c) then r (.mk t a s x c) else .mk t a s x c
       .mk e'.tag e'.attrs e'.style e'.textOf (c.map (rewriteAll p r))) := by
  rw [rewriteAll]
  simp [List.attach_map_coe]

theorem allNodes_mk (t : String) (a s : List (String × String)) (x : String)
    (c : List Element) :
    allNodes (.mk t a s x c) = .mk t a s x c :: (c.map allNodes).flatten := by
  rw [allNodes]
  simp [List.attach_map_coe]

theorem collectImgs_mk (t : String) (a s : List (String × String)) (x : String)
    (c : List Element) :
    collectImgs (.mk t a s x c) =
      (if isImg (.mk t a s x c) then [Element.mk t a s x c] else []) ++
        (c.map collectImgs).flatten := by
  rw [collectImgs]
  simp [List.attach_map_coe]

/-! ## Folder probing lemmas -/

theorem probeSuffix_eq_some (ex : String → Bool) (fn : String) :
    ∀ (fuel i n : Nat), i ≤ n → n < i + fuel →
      ex (fn ++ "-" ++ toString n) = false →
      (∀ m, i ≤ m → m < n → ex (fn ++ "-" ++ toString m) = true) →
      probeSuffix ex fn i fuel = some n := by
  intro fuel
  induction fuel with
  | zero => intro i n h1 h2 _ _; omega
  | succ f ih =>
    intro i n h1 h2 hfree hused
    by_cases heq : n = i
    · subst heq
      simp [probeSuffix, hfree]
    · have hi : ex (fn ++ "-" ++ toString i) = true := hused i (Nat.le_refl i) (by omega)
      simp only [probeSuffix, hi, if_true]
      exact ih (i + 1) n (by omega) (by omega) hfree (fun m hm1 hm2 => hused m (by omega) hm2)

theorem probeSuffix_free (ex : String → Bool) (fn : String) :
    ∀ (fuel i j : Nat), probeSuffix ex fn i fuel = some j →
      ex (fn ++ "-" ++ toString j) = false := by
  intro fuel
  induction fuel with
  | zero => intro i j h; simp [probeSuffix] at h
  | succ f ih =>
    intro i j h
    cases he : ex (fn ++ "-" ++ toString i) with
    | true =>
      simp only [probeSuffix, he, if_true] at h
      exact ih (i + 1) j h
    | false =>
      simp only [probeSuffix, he, Bool.false_eq_true, if_false, Option.some.injEq] at h
      subst h
      exact he

theorem string_append_suffix_ne (s t : String) (h : t.length ≠ 0) : s ++ t ≠ s := by
  intro heq
  have := congrArg String.length heq
  rw [String.length_append] at this
  omega

/-! ## Prefix disjointness and data-URI recognition -/

theorem strStartsWith_data_not_http (s : String)
    (h : strStartsWith s "data:" = true) : strStartsWith s "http" = false := by
  unfold strStartsWith at *
  cases hs : s.data with
  | nil => rw [hs] at h; exact absurd h (by decide)
  | cons c cs =>
    rw [hs] at h
    rw [show ("data:" : String).data = ['d', 'a', 't', 'a', ':'] from rfl] at h
    rw [show ("http" : String).data = ['h', 't', 't', 'p'] from rfl]
    simp only [List.isPrefixOf, Bool.and_eq_true, beq_iff_eq] at h
    obtain ⟨h1, -⟩ := h
    subst h1
    simp [List.isPrefixOf]

theorem strStartsWith_append_self (p r : String) :
    strStartsWith (p ++ r) p = true := by
  unfold strStartsWith
  rw [String.data_append, List.isPrefixOf_iff_prefix]
  exact List.prefix_append p.data r.data

theorem readAsDataURL_startsWith_data (bytes : List Nat) (mimeType : String) :
    strStartsWith (readAsDataURL bytes mimeType) "data:" = true := by
  unfold readAsDataURL
  rw [show "data:" ++ mimeType ++ ";base64," ++ base64Encode bytes =
    "data:" ++ (mimeType ++ ";base64," ++ base64Encode bytes) by
      simp [String.append_assoc]]
  exact strStartsWith_append_self "data:" (mimeType ++ ";base64," ++ base64Encode bytes)

/-! ## Per-node characterization of `embedSingleImage` -/

/-- Shorthand for the embed-hint check the source performs. -/
def isEmbedOf (e : Element) : Bool := getA e.attrs "data-is-embed" == some "true"

theorem embedSingleImage_noSrc (env : ImgEnv) (e : Element)
    (h : getA e.attrs "src" = none) : embedSingleImage env e = ([], .ok e) := by
  simp [embedSingleImage, h]

theorem embedSingleImage_dataSrc (env : ImgEnv) (e : Element) (s : String)
    (h : getA e.attrs "src" = some s) (hd : s = "" ∨ strStartsWith s "data:" = true) :
    embedSingleImage env e = ([], .ok e) := by
  rcases hd with hd | hd <;> simp [embedSingleImage, h, hd]

theorem embedSingleImage_run (env : ImgEnv) (e : Element) (s : String)
    (h : getA e.attrs "src" = some s) (h1 : s ≠ "")
    (h2 : strStartsWith s "data:" = false) :
    embedSingleImage env e =
      (match embedTry env e s with
       | (tr, .ok e') => (tr, .ok e')
       | (tr, .error _) => (tr, .ok e)) := by
  simp [embedSingleImage, h, h1, h2]

theorem embedTry_localHit (env : ImgEnv) (e : Element) (s : String) (f : TFile)
    (hl : localFile env (isEmbedOf e) s = .ok (some f)) :
    embedTry env e s =
      ([], (arrayBufferToBase64Async env.readerOk f.content
        (getMimeType f.extension)).map (applyDataURI e)) := by
  simp only [embedTry]
  rw [show (getA e.attrs "data-is-embed" == some "true") = isEmbedOf e from rfl, hl]
  cases henc : arrayBufferToBase64Async env.readerOk f.content (getMimeType f.extension) <;>
    simp [henc, Except.map]

theorem embedTry_fetch (env : ImgEnv) (e : Element) (s : String)
    (hl : localFile env (isEmbedOf e) s = .ok none)
    (he : isEmbedOf e = false) (hh : strStartsWith s "http" = true) :
    embedTry env e s =
      ([s], match env.fetchUrl s with
            | .ok resp => (arrayBufferToBase64Async env.readerOk resp.body
                (remoteMime resp)).map (applyDataURI e)
            | .error err => .error err) := by
  simp only [embedTry]
  rw [show (getA e.attrs "data-is-embed" == some "true") = isEmbedOf e from rfl, hl, he]
  cases hf : env.fetchUrl s with
  | ok resp =>
    cases henc : arrayBufferToBase64Async env.readerOk resp.body (remoteMime resp) <;>
      simp [hh, hf, henc, Except.map]
  | error err => simp [hh, hf]

theorem embedTry_noFetch_fail (env : ImgEnv) (e : Element) (s : String)
    (hl : localFile env (isEmbedOf e) s = .ok none)
    (hcond : ¬(isEmbedOf e = false ∧ strStartsWith s "http" = true)) :
    embedTry env e s = ([], .ok (markFailed e s)) := by
  simp only [embedTry]
  rw [show (getA e.attrs "data-is-embed" == some "true") = isEmbedOf e from rfl, hl]
  simp [hcond]

theorem embedTry_decodeThrow (env : ImgEnv) (e : Element) (s : String) (err : Unit)
    (hl : localFile env (isEmbedOf e) s = .error err) :
    embedTry env e s = ([], .error err) := by
  simp only [embedTry]
  rw [show (getA e.attrs "data-is-embed" == some "true") = isEmbedOf e from rfl, hl]

/-- The catch boundary: the async function's promise always fulfills. -/
theorem embedSingleImage_isOk (env : ImgEnv) (e : Element) :
    ∃ e', (embedSingleImage env e).2 = .ok e' := by
  unfold embedSingleImage
  cases h : getA e.attrs "src" with
  | none => exact ⟨e, rfl⟩
  | some s =>
    cases hd : (decide (s = "") || strStartsWith s "data:") with
    | true => exact ⟨e, by simp [hd]⟩
    | false =>
      match htry : embedTry env e s with
      | (tr, .ok e') => exact ⟨e', by simp [hd, htry]⟩
      | (tr, .error err) => exact ⟨e, by simp [hd, htry]⟩

theorem embedOut_eq_of_ok (env : ImgEnv) (e e' : Element)
    (h : (embedSingleImage env e).2 = .ok e') : embedOut env e = e' := by
  unfold embedOut
  rw [h]

/-! ## Claim C3: export-folder naming and uniqueness -/

/-- C3: `createUniqueExportFolder` sanitizes the basename (every character
outside `[A-Za-z0-9]` becomes `_`), appends `-Export`, and returns that name
when it does not exist; otherwise it appends `-{n}` for the smallest positive
`n` (probing from 1) whose name does not exist.  It never returns an existing
name, and two successive exports of the same document yield `X-Export` then
`X-Export-1`. -/
theorem createUniqueExportFolder_correct (ex : String → Bool) (basename : String)
    (fuel n : Nat) :
    (ex (sanitizeBasename basename ++ "-Export") = false →
      createUniqueExportFolder ex basename fuel =
        some (sanitizeBasename basename ++ "-Export")) ∧
    (ex (sanitizeBasename basename ++ "-Export") = true → 1 ≤ n → n ≤ fuel →
      ex (sanitizeBasename basename ++ "-Export" ++ "-" ++ toString n) = false →
      (∀ m, 1 ≤ m → m < n →
        ex (sanitizeBasename basename ++ "-Export" ++ "-" ++ toString m) = true) →
      createUniqueExportFolder ex basename fuel =
        some (sanitizeBasename basename ++ "-Export" ++ "-" ++ toString n)) ∧
    (∀ r, createUniqueExportFolder ex basename fuel = some r → ex r = false) ∧
    (ex (sanitizeBasename basename ++ "-Export") = false →
      ex (sanitizeBasename basename ++ "-Export" ++ "-" ++ toString 1) = false →
      1 ≤ fuel →
      createUniqueExportFolder ex basename fuel =
          some (sanitizeBasename basename ++ "-Export") ∧
        createUniqueExportFolder
            (fun s => s == sanitizeBasename basename ++ "-Export" || ex s)
            basename fuel =
          some (sanitizeBasename basename ++ "-Export" ++ "-" ++ toString 1)) := by
  have hne1 : sanitizeBasename basename ++ "-Export" ++ "-" ++ toString 1 ≠
      sanitizeBasename basename ++ "-Export" := by
    intro heq
    have hlen := congrArg String.length heq
    rw [show (toString 1 : String) = "1" from rfl] at hlen
    simp only [String.length_append, show ("-" : String).length = 1 from rfl,
      show ("1" : String).length = 1 from rfl] at hlen
    omega
  refine ⟨?_, ?_, ?_, ?_⟩
  · intro h
    simp [createUniqueExportFolder, h]
  · intro h h1 h2 hfree hused
    simp only [createUniqueExportFolder, h, Bool.true_eq_false, if_false]
    rw [probeSuffix_eq_some ex (sanitizeBasename basename ++ "-Export") fuel 1 n h1
      (by omega) hfree (fun m hm1 hm2 => hused m hm1 hm2)]
  · intro r hr
    simp only [createUniqueExportFolder] at hr
    split at hr
    · next h =>
        simp only [Option.some.injEq] at hr
        rw [← hr]
        exact h
    · next h =>
        split at hr
        · next i hp =>
            simp only [Option.some.injEq] at hr
            rw [← hr]
            exact probeSuffix_free ex (sanitizeBasename basename ++ "-Export") fuel 1 i hp
        · next hp => cases hr
  · intro h1 h1' hf
    constructor
    · simp [createUniqueExportFolder, h1]
    · have hex' : ((sanitizeBasename basename ++ "-Export" :
          String) == sanitizeBasename basename ++ "-Export") = true := by
        simp
      have hprobe1 : ((sanitizeBasename basename ++ "-Export" ++ "-" ++ toString 1 :
          String) == sanitizeBasename basename ++ "-Export") = false :=
        beq_eq_false_iff_ne.mpr hne1
      simp only [createUniqueExportFolder, hex', Bool.true_or, Bool.true_eq_false, if_false]
      rw [probeSuffix_eq_some _ (sanitizeBasename basename ++ "-Export") fuel 1 1
        (Nat.le_refl 1) (by omega)
        (by simp only [hprobe1, Bool.false_or]; exact h1')
        (fun m hm1 hm2 => by omega)]

def exW : String → Bool := fun s => s == "Note-Export"

/-- C3 witness: against a store already holding `Note-Export`, exporting note
`Note` probes from 1 and creates `Note-Export-1`. -/
theorem createUniqueExportFolder_correct_witness :
    createUniqueExportFolder exW "Note" 3 =
      some (sanitizeBasename "Note" ++ "-Export" ++ "-" ++ toString 1) :=
  (createUniqueExportFolder_correct exW "Note" 3 1).2.1 (by decide) (by decide)
    (by decide) (by decide) (fun m hm1 hm2 => by omega)

/-! ## Claim C8: render-container lifetime in `generatePdf` -/

/-- C8: on every exit path of `generatePdf` — success, any per-resource
outcome folded into `processResult`, or an exceptional exit of rendering,
folder creation, or saving — container creations and removals balance; with
an active file the container is created exactly once and its removal is the
final DOM effect; with no active file the container is never created. -/
theorem generatePdf_container_scoped (env : PdfEnv) :
    ((generatePdf env).count .createContainer =
      (generatePdf env).count .removeContainer) ∧
    (∀ b, env.activeFile = some b →
      (generatePdf env).count .createContainer = 1 ∧
      (generatePdf env).getLast? = some .removeContainer) ∧
    (env.activeFile = none → PdfEffect.createContainer ∉ generatePdf env) := by
  cases ha : env.activeFile with
  | none => cases hb : pdfTryBody env <;> simp [generatePdf, ha]
  | some b => cases hb : pdfTryBody env <;> simp [generatePdf, ha, hb]

def envPdfW : PdfEnv :=
  { activeFile := some "Note", renderResult := .ok (), folderResult := .ok "Note-Export",
    processResult := .ok (), saveResult := .error () }

/-- C8 witness: an export whose final save throws still creates the container
once and removes it as the last DOM effect. -/
theorem generatePdf_container_scoped_witness :
    (generatePdf envPdfW).count .createContainer = 1 ∧
    (generatePdf envPdfW).getLast? = some .removeContainer :=
  (generatePdf_container_scoped envPdfW).2.1 "Note" rfl

/-! ## Claim C9: binary-safe data-URI encoding -/

/-- C9: for every byte sequence and MIME type, `arrayBufferToBase64Async`
produces a data URI naming the given MIME type whose base64 payload decodes
back to exactly the original bytes. -/
theorem arrayBufferToBase64Async_binary_safe (buffer : List Nat) (mimeType : String)
    (hb : ∀ b ∈ buffer, b < 256) :
    arrayBufferToBase64Async true buffer mimeType =
      .ok ("data:" ++ mimeType ++ ";base64," ++ base64Encode buffer) ∧
    decodeChunks (base64Encode buffer).data = some buffer := by
  exact ⟨arrayBufferToBase64Async_ok buffer mimeType,
    decodeChunks_encodeChunks buffer hb⟩

/-- C9 witness: the bytes `[0, 77, 255]` survive the encode/decode round trip
inside a `image/png` data URI. -/
theorem arrayBufferToBase64Async_binary_safe_witness :
    arrayBufferToBase64Async true [0, 77, 255] "image/png" =
      .ok ("data:" ++ "image/png" ++ ";base64," ++ base64Encode [0, 77, 255]) ∧
    decodeChunks (base64Encode [0, 77, 255]).data = some [0, 77, 255] :=
  arrayBufferToBase64Async_binary_safe [0, 77, 255] "image/png" (by decide)

/-! ## Claim C4: idempotence on already-inlined nodes -/

theorem mem_allNodes_self (e : Element) : e ∈ allNodes e := by
  cases e with
  | mk t a s x c =>
    rw [allNodes_mk]
    exact List.mem_cons_self _ _

theorem mem_allNodes_of_child (t : String) (a s : List (String × String))
    (x : String) (c : List Element) (e e' : Element) (he : e ∈ c)
    (he' : e' ∈ allNodes e) : e' ∈ allNodes (.mk t a s x c) := by
  rw [allNodes_mk]
  exact List.mem_cons_of_mem _
    (List.mem_flatten.mpr ⟨allNodes e, List.mem_map_of_mem _ he, he'⟩)

theorem rewriteAll_id_of_inlined (env : ImgEnv) :
    ∀ t : Element,
      (∀ e' ∈ allNodes t, isImg e' = true →
        ∃ u, getA e'.attrs "src" = some u ∧ strStartsWith u "data:" = true) →
      rewriteAll isImg (embedOut env) t = t := by
  apply Element.indOn
  intro tg a st x c ih hall
  rw [rewriteAll_mk]
  have hchild : c.map (rewriteAll isImg (embedOut env)) = c := by
    rw [List.map_congr_left (fun e he => ih e he
      (fun e' he' him => hall e' (mem_allNodes_of_child tg a st x c e e' he he') him))]
    exact List.map_id c
  cases hp : isImg (Element.mk tg a st x c) with
  | false => simp [hp, hchild]
  | true =>
    obtain ⟨u, hu, hdata⟩ :=
      hall (Element.mk tg a st x c) (mem_allNodes_self _) hp
    have hskip : embedSingleImage env (Element.mk tg a st x c) =
        ([], .ok (Element.mk tg a st x c)) :=
      embedSingleImage_dataSrc env _ u hu (Or.inr hdata)
    have hout : embedOut env (Element.mk tg a st x c) = Element.mk tg a st x c :=
      embedOut_eq_of_ok env _ _ (by rw [hskip])
    simp [hp, hout, hchild]

/-- C4: a node whose `src` already denotes an inline data representation is
returned by `embedSingleImage` unchanged, with no resolution effects; hence
re-running the inlining stage over a tree whose image nodes are all inlined
rewrites nothing at all. -/
theorem inlining_idempotent (env : ImgEnv) (e : Element) (s : String) (t : Element) :
    (getA e.attrs "src" = some s → strStartsWith s "data:" = true →
      embedSingleImage env e = ([], .ok e)) ∧
    ((∀ e' ∈ allNodes t, isImg e' = true →
        ∃ u, getA e'.attrs "src" = some u ∧ strStartsWith u "data:" = true) →
      rewriteAll isImg (embedOut env) t = t) :=
  ⟨fun hs hd => embedSingleImage_dataSrc env e s hs (Or.inr hd),
   fun hall => rewriteAll_id_of_inlined env t hall⟩

def envNoVault : ImgEnv :=
  { resolveLink := fun _ => none, vaultFiles := [],
    fetchUrl := fun _ => .error (), decodeURI := fun s => .ok s, readerOk := true }

def imgInlined : Element :=
  .mk "img" [("src", "data:image/png;base64,AA==")] [] "" []

def treeInlined : Element := .mk "div" [] [] "" [imgInlined]

/-- C4 witness: an already-inlined image is skipped and the inlining stage is
the identity on a tree containing only it. -/
theorem inlining_idempotent_witness :
    embedSingleImage envNoVault imgInlined = ([], .ok imgInlined) ∧
    rewriteAll isImg (embedOut envNoVault) treeInlined = treeInlined := by
  have h := inlining_idempotent envNoVault imgInlined "data:image/png;base64,AA==" treeInlined
  refine ⟨h.1 rfl (by decide), h.2 ?_⟩
  intro e' he' him
  have hn : allNodes treeInlined = [treeInlined, imgInlined] := by
    simp [treeInlined, imgInlined, allNodes_mk]
  rw [hn] at he'
  simp only [List.mem_cons, List.not_mem_nil, or_false] at he'
  rcases he' with he' | he'
  · rw [he'] at him
    exact absurd him (by decide)
  · rw [he']
    exact ⟨"data:image/png;base64,AA==", rfl, by decide⟩

/-! ## Claim C10: frame property of the failure marker -/

/-- C10: on the marked-failure branch (no bytes from either resolver) only the
`alt` attribute and the `border` style change; `src` and every other
attribute and style keep their prior values, and the original reference is
still present on the marked node. -/
theorem markFailed_frame (env : ImgEnv) (e : Element) (s : String)
    (hs : getA e.attrs "src" = some s) (h1 : s ≠ "")
    (h2 : strStartsWith s "data:" = false)
    (hl : localFile env (isEmbedOf e) s = .ok none)
    (hcond : ¬(isEmbedOf e = false ∧ strStartsWith s "http" = true)) :
    embedOut env e = markFailed e s ∧
    getA (embedOut env e).attrs "src" = some s ∧
    (∀ k, k ≠ "alt" → getA (embedOut env e).attrs k = getA e.attrs k) ∧
    getA (embedOut env e).attrs "alt" = some ("[Image Missing: " ++ s ++ "]") ∧
    getA (embedOut env e).style "border" = some "1px solid red" ∧
    (∀ k, k ≠ "border" → getA (embedOut env e).style k = getA e.style k) ∧
    (embedOut env e).tag = e.tag ∧ (embedOut env e).textOf = e.textOf ∧
    (embedOut env e).children = e.children := by
  have htry := embedTry_noFetch_fail env e s hl hcond
  have hrun := embedSingleImage_run env e s hs h1 h2
  have hout : embedOut env e = markFailed e s := by
    apply embedOut_eq_of_ok
    rw [hrun, htry]
  rw [hout]
  refine ⟨rfl, ?_, ?_, ?_, ?_, ?_, rfl, rfl, rfl⟩
  · rw [show (markFailed e s).attrs =
      setA e.attrs "alt" ("[Image Missing: " ++ s ++ "]") from rfl]
    rw [getA_setA_other _ _ _ _ (by decide)]
    exact hs
  · intro k hk
    rw [show (markFailed e s).attrs =
      setA e.attrs "alt" ("[Image Missing: " ++ s ++ "]") from rfl]
    exact getA_setA_other _ _ _ _ hk
  · exact getA_setA_same _ _ _
  · exact getA_setA_same _ _ _
  · intro k hk
    rw [show (markFailed e s).style = setA e.style "border" "1px solid red" from rfl]
    exact getA_setA_other _ _ _ _ hk

def imgMissing : Element := .mk "img" [("src", "missing.png"), ("id", "x")] [] "" []

/-- C10 witness: a vault miss on a non-http reference marks the node while
keeping `src` and the unrelated `id` attribute intact. -/
theorem markFailed_frame_witness :
    embedOut envNoVault imgMissing = markFailed imgMissing "missing.png" ∧
    getA (embedOut envNoVault imgMissing).attrs "src" = some "missing.png" ∧
    (∀ k, k ≠ "alt" →
      getA (embedOut envNoVault imgMissing).attrs k = getA imgMissing.attrs k) ∧
    getA (embedOut envNoVault imgMissing).attrs "alt" =
      some ("[Image Missing: " ++ "missing.png" ++ "]") ∧
    getA (embedOut envNoVault imgMissing).style "border" = some "1px solid red" ∧
    (∀ k, k ≠ "border" →
      getA (embedOut envNoVault imgMissing).style k = getA imgMissing.style k) ∧
    (embedOut envNoVault imgMissing).tag = imgMissing.tag ∧
    (embedOut envNoVault imgMissing).textOf = imgMissing.textOf ∧
    (embedOut envNoVault imgMissing).children = imgMissing.children :=
  markFailed_frame envNoVault imgMissing "missing.png" rfl (by decide) (by decide)
    rfl (by decide)

/-! ## Claim C6: remote-fetch gating, single fetch, response handling -/

theorem embedSingleImage_fst (env : ImgEnv) (e : Element) (s : String)
    (hs : getA e.attrs "src" = some s) (h1 : s ≠ "")
    (h2 : strStartsWith s "data:" = false) :
    (embedSingleImage env e).1 = (embedTry env e s).1 := by
  rw [embedSingleImage_run env e s hs h1 h2]
  rcases htry : embedTry env e s with ⟨tr, he'⟩
  cases he' <;> simp [htry]

/-- C6 counterexample: a fetch whose response declares an empty (present)
`content-type` header is encoded with MIME `image/png`, not with the declared
header value as the claim states. -/
def respEmptyCT : RemoteResponse := { body := [1], headers := [("content-type", "")] }

def envEmptyCT : ImgEnv :=
  { resolveLink := fun _ => none, vaultFiles := [],
    fetchUrl := fun _ => .ok respEmptyCT, decodeURI := fun s => .ok s, readerOk := true }

def imgRemote : Element := .mk "img" [("src", "http://h/pic.png")] [] "" []

theorem fetch_mime_counterexample :
    getA respEmptyCT.headers "content-type" = some "" ∧
    getA (embedOut envEmptyCT imgRemote).attrs "src" =
      some "data:image/png;base64,AQ==" ∧
    "data:image/png;base64,AQ==" ≠ "data:" ++ "" ++ ";base64," ++ base64Encode [1] := by
  refine ⟨rfl, ?_, by decide⟩
  decide

/-- C6 (amended): a fetch is issued iff local resolution failed, the node is
not an embed hint and the reference begins with `http`; at most one fetch is
ever issued (no retry); and on fetch success the payload is the response body
while the MIME type is the declared `content-type` header, defaulting to
`image/png` when that header is absent **or empty**. -/
theorem fetch_gating_and_response (env : ImgEnv) (e : Element) (s : String)
    (hs : getA e.attrs "src" = some s) :
    ((embedSingleImage env e).1 = [s] ↔
      (localFile env (isEmbedOf e) s = .ok none ∧ isEmbedOf e = false ∧
        strStartsWith s "http" = true)) ∧
    ((embedSingleImage env e).1 = [] ∨ (embedSingleImage env e).1 = [s]) ∧
    (∀ resp, localFile env (isEmbedOf e) s = .ok none → isEmbedOf e = false →
      strStartsWith s "http" = true → env.fetchUrl s = .ok resp →
      env.readerOk = true →
      embedOut env e = applyDataURI e (readAsDataURL resp.body
        (match getA resp.headers "content-type" with
         | some m => if m = "" then "image/png" else m
         | none => "image/png"))) := by
  by_cases hskip : s = "" ∨ strStartsWith s "data:" = true
  · have hz : embedSingleImage env e = ([], .ok e) :=
      embedSingleImage_dataSrc env e s hs hskip
    refine ⟨⟨fun h => ?_, fun ⟨_, _, hh⟩ => ?_⟩, Or.inl (by rw [hz]), ?_⟩
    · rw [hz] at h
      cases h
    · rcases hskip with hE | hD
      · rw [hE] at hh
        exact absurd hh (by decide)
      · rw [strStartsWith_data_not_http s hD] at hh
        cases hh
    · intro resp hl he hh hf hr
      rcases hskip with hE | hD
      · rw [hE] at hh
        exact absurd hh (by decide)
      · rw [strStartsWith_data_not_http s hD] at hh
        cases hh
  · push_neg at hskip
    obtain ⟨h1, h2'⟩ := hskip
    have h2 : strStartsWith s "data:" = false := by
      revert h2'
      cases strStartsWith s "data:" <;> simp
    have hfst := embedSingleImage_fst env e s hs h1 h2
    refine ⟨⟨fun h => ?_, fun ⟨hl, he, hh⟩ => ?_⟩, ?_, ?_⟩
    · rw [hfst] at h
      rcases hloc : localFile env (isEmbedOf e) s with err | fileOpt
      · rw [embedTry_decodeThrow env e s err hloc] at h
        cases h
      · cases fileOpt with
        | some f =>
          rw [embedTry_localHit env e s f hloc] at h
          cases h
        | none =>
          by_cases hcond : isEmbedOf e = false ∧ strStartsWith s "http" = true
          · exact ⟨rfl, hcond.1, hcond.2⟩
          · rw [embedTry_noFetch_fail env e s hloc hcond] at h
            cases h
    · rw [hfst, embedTry_fetch env e s hl he hh]
    · rw [hfst]
      rcases hloc : localFile env (isEmbedOf e) s with err | fileOpt
      · rw [embedTry_decodeThrow env e s err hloc]
        exact Or.inl rfl
      · cases fileOpt with
        | some f =>
          rw [embedTry_localHit env e s f hloc]
          exact Or.inl rfl
        | none =>
          by_cases hcond : isEmbedOf e = false ∧ strStartsWith s "http" = true
          · rw [embedTry_fetch env e s hloc hcond.1 hcond.2]
            exact Or.inr rfl
          · rw [embedTry_noFetch_fail env e s hloc hcond]
            exact Or.inl rfl
    · intro resp hl he hh hf hr
      apply embedOut_eq_of_ok
      rw [embedSingleImage_run env e s hs h1 h2, embedTry_fetch env e s hl he hh,
        hf, hr]
      simp [arrayBufferToBase64Async_ok, Except.map, remoteMime]

def respGifW : RemoteResponse := { body := [2], headers := [("content-type", "image/gif")] }

def envGifW : ImgEnv :=
  { resolveLink := fun _ => none, vaultFiles := [],
    fetchUrl := fun _ => .ok respGifW, decodeURI := fun s => .ok s, readerOk := true }

def imgRemoteW : Element := .mk "img" [("src", "http://w/x")] [] "" []

/-- C6 witness: an unresolvable non-embed `http` reference issues exactly one
fetch and embeds the response body under its declared `content-type`. -/
theorem fetch_gating_and_response_witness :
    (embedSingleImage envGifW imgRemoteW).1 = ["http://w/x"] ∧
    embedOut envGifW imgRemoteW = applyDataURI imgRemoteW (readAsDataURL [2]
      (match getA respGifW.headers "content-type" with
       | some m => if m = "" then "image/png" else m
       | none => "image/png")) := by
  have h := fetch_gating_and_response envGifW imgRemoteW "http://w/x" rfl
  exact ⟨h.1.mpr ⟨rfl, rfl, by decide⟩, h.2.2 respGifW rfl rfl (by decide) rfl rfl⟩

/-! ## Claim C2: failure isolation and the `Promise.all` join -/

theorem promiseAll_embeds (env : ImgEnv) :
    ∀ l : List Element,
      promiseAll (l.map (fun i => (embedSingleImage env i).2)) =
        .ok (l.map (embedOut env)) := by
  intro l
  induction l with
  | nil => rfl
  | cons e es ih =>
    obtain ⟨e', he⟩ := embedSingleImage_isOk env e
    have hout := embedOut_eq_of_ok env e e' he
    simp [promiseAll, he, ih, hout]

/-- C2: every per-image task settles successfully — `embedSingleImage`'s
promise always fulfills, for every outcome of local resolution, remote fetch,
URI decoding and the reader — so the `Promise.all` join in `processImages`
fulfills with each sibling's own independent result. -/
theorem processImages_isolation (env : ImgEnv) (t : Element) :
    (∀ e : Element, ∃ e', (embedSingleImage env e).2 = .ok e') ∧
    processImagesJoin env t = .ok ((collectImgs (normalizeEmbeds t)).map (embedOut env)) :=
  ⟨fun e => embedSingleImage_isOk env e,
   promiseAll_embeds env (collectImgs (normalizeEmbeds t))⟩

/-! ## Claim C1: completeness of inlining (dangling references) -/

theorem getA_applyDataURI_src (e : Element) (u : String) :
    getA (applyDataURI e u).attrs "src" = some u := by
  show getA (removeA (removeA (removeA (removeA (setA e.attrs "src" u) "srcset")
    "data-src") "data-is-embed") "sizes") "src" = some u
  rw [getA_removeA_other _ _ _ (by decide), getA_removeA_other _ _ _ (by decide),
    getA_removeA_other _ _ _ (by decide), getA_removeA_other _ _ _ (by decide)]
  exact getA_setA_same _ _ _

theorem getA_markFailed_src (e : Element) (s : String) :
    getA (markFailed e s).attrs "src" = getA e.attrs "src" := by
  show getA (setA e.attrs "alt" ("[Image Missing: " ++ s ++ "]")) "src" = _
  exact getA_setA_other _ _ _ _ (by decide)

theorem getA_markFailed_alt (e : Element) (s : String) :
    getA (markFailed e s).attrs "alt" = some ("[Image Missing: " ++ s ++ "]") :=
  getA_setA_same _ _ _

theorem getA_markFailed_border (e : Element) (s : String) :
    getA (markFailed e s).style "border" = some "1px solid red" :=
  getA_setA_same _ _ _

/-- Per-node trichotomy: after `embedSingleImage` settles, the node carries an
inline `data:` reference, or is the failure-marked original, or is exactly the
input node (skipped, or its processing threw and was caught). -/
theorem embedOut_cases (env : ImgEnv) (e : Element) :
    (∃ u, getA (embedOut env e).attrs "src" = some u ∧
      strStartsWith u "data:" = true) ∨
    (∃ s, getA e.attrs "src" = some s ∧ embedOut env e = markFailed e s) ∨
    embedOut env e = e := by
  cases hs : getA e.attrs "src" with
  | none =>
    right; right
    exact embedOut_eq_of_ok env e e (by rw [embedSingleImage_noSrc env e hs])
  | some s =>
    by_cases hskip : s = "" ∨ strStartsWith s "data:" = true
    · right; right
      exact embedOut_eq_of_ok env e e (by rw [embedSingleImage_dataSrc env e s hs hskip])
    · push_neg at hskip
      obtain ⟨h1, h2'⟩ := hskip
      have h2 : strStartsWith s "data:" = false := by
        revert h2'
        cases strStartsWith s "data:" <;> simp
      have hrun := embedSingleImage_run env e s hs h1 h2
      rcases hloc : localFile env (isEmbedOf e) s with err | fileOpt
      · right; right
        apply embedOut_eq_of_ok
        rw [hrun, embedTry_decodeThrow env e s err hloc]
      · cases fileOpt with
        | some f =>
          cases hro : env.readerOk with
          | true =>
            left
            have hout : embedOut env e =
                applyDataURI e (readAsDataURL f.content (getMimeType f.extension)) := by
              apply embedOut_eq_of_ok
              rw [hrun, embedTry_localHit env e s f hloc, hro, arrayBufferToBase64Async_ok]
              simp [Except.map]
            refine ⟨readAsDataURL f.content (getMimeType f.extension), ?_, ?_⟩
            · rw [hout]
              exact getA_applyDataURI_src e _
            · exact readAsDataURL_startsWith_data _ _
          | false =>
            right; right
            apply embedOut_eq_of_ok
            rw [hrun, embedTry_localHit env e s f hloc, hro]
            rfl
        | none =>
          by_cases hcond : isEmbedOf e = false ∧ strStartsWith s "http" = true
          · cases hf : env.fetchUrl s with
            | error ferr =>
              right; right
              apply embedOut_eq_of_ok
              rw [hrun, embedTry_fetch env e s hloc hcond.1 hcond.2, hf]
            | ok resp =>
              cases hro : env.readerOk with
              | true =>
                left
                have hout : embedOut env e =
                    applyDataURI e (readAsDataURL resp.body (remoteMime resp)) := by
                  apply embedOut_eq_of_ok
                  rw [hrun, embedTry_fetch env e s hloc hcond.1 hcond.2, hf, hro]
                  simp [arrayBufferToBase64Async_ok, Except.map]
                refine ⟨readAsDataURL resp.body (remoteMime resp), ?_, ?_⟩
                · rw [hout]
                  exact getA_applyDataURI_src e _
                · exact readAsDataURL_startsWith_data _ _
              | false =>
                right; right
                apply embedOut_eq_of_ok
                rw [hrun, embedTry_fetch env e s hloc hcond.1 hcond.2, hf, hro]
                rfl
          · right; left
            exact ⟨s, rfl, embedOut_eq_of_ok _ _ _
              (by rw [hrun, embedTry_noFetch_fail env e s hloc hcond])⟩

/-- Shallow field agreement (the structural relation between a node of the
rewritten tree and the rewrite of the corresponding input node, whose
children are themselves rewritten further down). -/
def shallowEq (a b : Element) : Prop :=
  a.tag = b.tag ∧ a.attrs = b.attrs ∧ a.style = b.style ∧ a.textOf = b.textOf

theorem allNodes_rewriteAll (p : Element → Bool) (r : Element → Element) :
    ∀ t : Element, ∀ e' ∈ allNodes (rewriteAll p r t),
      ∃ e, shallowEq e' (if p e then r e else e) := by
  apply Element.indOn
    (P := fun t => ∀ e' ∈ allNodes (rewriteAll p r t),
      ∃ e, shallowEq e' (if p e then r e else e))
  intro tg a st x c ih e' he'
  rw [rewriteAll_mk] at he'
  simp only [allNodes_mk] at he'
  rcases List.mem_cons.mp he' with he' | he'
  · refine ⟨.mk tg a st x c, ?_⟩
    rw [he']
    exact ⟨rfl, rfl, rfl, rfl⟩
  · obtain ⟨l, hl, hel⟩ := List.mem_flatten.mp he'
    obtain ⟨ce, hce, hlce⟩ := List.mem_map.mp hl
    obtain ⟨c0, hc0, hc0e⟩ := List.mem_map.mp hce
    rw [← hlce, ← hc0e] at hel
    exact ih c0 hc0 e' hel

def imgBroken : Element := .mk "img" [("src", "http://example.com/a.png")] [] "" []

def treeBroken : Element := .mk "div" [] [] "" [imgBroken]

/-- C1 counterexample: an image whose remote fetch throws is left in the tree
with its original external reference and no failure marker at all — the
pipeline output still contains a dangling external reference. -/
theorem dangling_reference_counterexample :
    processImages envNoVault treeBroken = treeBroken ∧
    imgBroken ∈ allNodes (processImages envNoVault treeBroken) ∧
    isImg imgBroken = true ∧
    getA imgBroken.attrs "src" = some "http://example.com/a.png" ∧
    strStartsWith "http://example.com/a.png" "data:" = false ∧
    getA imgBroken.attrs "alt" = none ∧
    getA imgBroken.style "border" = none := by
  have hn : normalizeEmbeds treeBroken = treeBroken := by
    show rewriteTop recognizedEmbed embedToImg (.mk "div" [] [] "" [imgBroken]) =
      (.mk "div" [] [] "" [imgBroken])
    rw [rewriteTop_mk, if_neg (by decide)]
    show Element.mk "div" [] [] ""
      [rewriteTop recognizedEmbed embedToImg (.mk "img"
        [("src", "http://example.com/a.png")] [] "" [])] = _
    rw [rewriteTop_mk, if_neg (by decide)]
    rfl
  have hone : embedOut envNoVault imgBroken = imgBroken := rfl
  have hra : rewriteAll isImg (embedOut envNoVault) treeBroken = treeBroken := by
    show rewriteAll isImg (embedOut envNoVault) (.mk "div" [] [] "" [imgBroken]) =
      (.mk "div" [] [] "" [imgBroken])
    rw [rewriteAll_mk, if_neg (by decide)]
    show Element.mk "div" [] [] ""
      [rewriteAll isImg (embedOut envNoVault) (.mk "img"
        [("src", "http://example.com/a.png")] [] "" [])] = _
    rw [rewriteAll_mk, if_pos (by decide)]
    rw [show (Element.mk "img" [("src", "http://example.com/a.png")] [] "" []) =
      imgBroken from rfl, hone]
    rfl
  have hpi : processImages envNoVault treeBroken = treeBroken := by
    simp only [processImages, hn, hra]
  refine ⟨hpi, ?_, rfl, rfl, by decide, rfl, rfl⟩
  rw [hpi]
  show imgBroken ∈ allNodes (.mk "div" [] [] "" [imgBroken])
  exact mem_allNodes_of_child _ _ _ _ _ imgBroken imgBroken (List.mem_cons_self _ _)
    (mem_allNodes_self imgBroken)

/-- C1 (amended): after the pipeline, every image node either carries an
inline `data:` reference, or is the failure-marked original (alt text naming
the reference plus red border, src intact), or is exactly as it was before
the pass — the last case arising when the node was skipped or when its
processing threw (e.g. a rejected remote fetch), which the catch turns into a
console log leaving the dangling reference unmarked. -/
theorem inline_or_marked (env : ImgEnv) (e : Element) (t e' : Element) :
    ((∃ u, getA (embedOut env e).attrs "src" = some u ∧
        strStartsWith u "data:" = true) ∨
      (∃ s, getA e.attrs "src" = some s ∧ embedOut env e = markFailed e s) ∨
      embedOut env e = e) ∧
    (e' ∈ allNodes (processImages env t) → isImg e' = true →
      ((∃ u, getA e'.attrs "src" = some u ∧ strStartsWith u "data:" = true) ∨
        (∃ s, getA e'.attrs "src" = some s ∧
          getA e'.attrs "alt" = some ("[Image Missing: " ++ s ++ "]") ∧
          getA e'.style "border" = some "1px solid red") ∨
        (∃ e0, embedOut env e0 = e0 ∧ e'.attrs = e0.attrs ∧ e'.style = e0.style))) := by
  refine ⟨embedOut_cases env e, ?_⟩
  intro hmem himg
  rw [show processImages env t = rewriteAll isImg (embedOut env) (normalizeEmbeds t)
    from rfl] at hmem
  obtain ⟨e0, hsh⟩ := allNodes_rewriteAll isImg (embedOut env) (normalizeEmbeds t) e' hmem
  cases hp : isImg e0 with
  | false =>
    rw [hp] at hsh
    simp only [Bool.false_eq_true, if_false] at hsh
    have : isImg e' = isImg e0 := by
      unfold isImg
      rw [hsh.1]
    rw [himg, hp] at this
    cases this
  | true =>
    rw [hp, if_pos rfl] at hsh
    rcases embedOut_cases env e0 with ⟨u, hu, hdata⟩ | ⟨s, hsrc, hmk⟩ | hunch
    · left
      exact ⟨u, by rw [hsh.2.1]; exact hu, hdata⟩
    · right; left
      refine ⟨s, ?_, ?_, ?_⟩
      · rw [hsh.2.1, hmk, getA_markFailed_src]
        exact hsrc
      · rw [hsh.2.1, hmk]
        exact getA_markFailed_alt e0 s
      · rw [hsh.2.2.1, hmk]
        exact getA_markFailed_border e0 s
    · right; right
      refine ⟨e0, hunch, ?_, ?_⟩
      · rw [← hunch]
        exact hsh.2.1
      · rw [← hunch]
        exact hsh.2.2.1

def imgDoneW : Element := embedOut envGifW imgRemoteW

/-- C1 witness: a successfully fetched remote image ends the pass holding an
inline `data:` reference, both per node and as a member of the output tree. -/
theorem inline_or_marked_witness :
    ((∃ u, getA (embedOut envGifW imgRemoteW).attrs "src" = some u ∧
        strStartsWith u "data:" = true) ∨
      (∃ s, getA imgRemoteW.attrs "src" = some s ∧
        embedOut envGifW imgRemoteW = markFailed imgRemoteW s) ∨
      embedOut envGifW imgRemoteW = imgRemoteW) ∧
    ((∃ u, getA imgDoneW.attrs "src" = some u ∧ strStartsWith u "data:" = true) ∨
      (∃ s, getA imgDoneW.attrs "src" = some s ∧
        getA imgDoneW.attrs "alt" = some ("[Image Missing: " ++ s ++ "]") ∧
        getA imgDoneW.style "border" = some "1px solid red") ∨
      (∃ e0, embedOut envGifW e0 = e0 ∧ imgDoneW.attrs = e0.attrs ∧
        imgDoneW.style = e0.style)) := by
  have hpi : processImages envGifW imgRemoteW = imgDoneW := by
    have hn : normalizeEmbeds imgRemoteW = imgRemoteW := by
      show rewriteTop recognizedEmbed embedToImg (.mk "img" [("src", "http://w/x")]
        [] "" []) = (.mk "img" [("src", "http://w/x")] [] "" [])
      rw [rewriteTop_mk, if_neg (by decide)]
      rfl
    show rewriteAll isImg (embedOut envGifW) (normalizeEmbeds imgRemoteW) = imgDoneW
    rw [hn]
    show rewriteAll isImg (embedOut envGifW) (.mk "img" [("src", "http://w/x")]
      [] "" []) = imgDoneW
    rw [rewriteAll_mk, if_pos (by decide)]
    rfl
  have h := inline_or_marked envGifW imgRemoteW imgRemoteW imgDoneW
  refine ⟨h.1, h.2 ?_ (by decide)⟩
  rw [hpi]
  exact mem_allNodes_self imgDoneW

/-! ## Claim C5: embed-marker normalization -/

/-- The positional replacement relation performed by the normalization loop:
a recognized marker is replaced in place by its synthesized image (content
inside a replaced marker is discarded with it); any other node keeps its tag,
attributes, style and text, its children related pointwise (same positions,
same parent). -/
inductive NormRel : Element → Element → Prop where
  | replaced (e : Element) : recognizedEmbed e = true → NormRel e (embedToImg e)
  | kept (t : String) (a s : List (String × String)) (x : String)
      (c c' : List Element) : recognizedEmbed (.mk t a s x c) = false →
      List.Forall₂ NormRel c c' → NormRel (.mk t a s x c) (.mk t a s x c')

theorem forall₂_map_of_mem {r : Element → Element → Prop} (f : Element → Element) :
    ∀ l : List Element, (∀ e ∈ l, r e (f e)) → List.Forall₂ r l (l.map f) := by
  intro l h
  induction l with
  | nil => exact List.Forall₂.nil
  | cons e es ih =>
    exact List.Forall₂.cons (h e (List.mem_cons_self _ _))
      (ih fun e' he' => h e' (List.mem_cons_of_mem _ he'))

def spanDotless : Element :=
  .mk "span" [("class", "internal-embed"), ("src", "png")] [] "" []

def treeDotless : Element := .mk "div" [] [] "" [spanDotless]

/-- C5 counterexample: a marker whose reference contains no `.` at all — an
absent extension — is **not** left untouched: `split('.').pop()` yields the
whole reference, so a marker with src `"png"` is replaced by an image. -/
theorem dotless_marker_counterexample :
    (∀ ch ∈ ("png" : String).data, ch ≠ '.') ∧
    normalizeEmbeds treeDotless = .mk "div" [] [] "" [embedToImg spanDotless] ∧
    normalizeEmbeds treeDotless ≠ treeDotless := by
  have h2 : normalizeEmbeds treeDotless = .mk "div" [] [] "" [embedToImg spanDotless] := by
    show rewriteTop recognizedEmbed embedToImg (.mk "div" [] [] "" [spanDotless]) = _
    rw [rewriteTop_mk, if_neg (by decide)]
    show Element.mk "div" [] [] "" [rewriteTop recognizedEmbed embedToImg
      (.mk "span" [("class", "internal-embed"), ("src", "png")] [] "" [])] = _
    rw [rewriteTop_mk, if_pos (by decide)]
    rfl
  refine ⟨by decide, h2, ?_⟩
  intro h
  rw [h2] at h
  have hc : [embedToImg spanDotless] = [spanDotless] := congrArg Element.children h
  have ht := congrArg (fun l => l.map Element.tag) hc
  simp only [List.map_cons, List.map_nil] at ht
  have : ("img" : String) = "span" := by
    have := List.cons.injEq _ _ _ _ ▸ ht
    exact (List.cons.inj ht).1
  exact absurd this (by decide)

/-- C5 (amended): normalization relates the input tree to the output tree by
in-place replacement — every recognized marker (an `internal-embed` span with
a non-empty src whose extension, the substring after the last `.` taken as
the whole reference when no `.` occurs, is in the recognized set, lowercased)
becomes the synthesized image (same reference, embed-hint flag, same
position, same parent); all other nodes are untouched apart from their
children being normalized — and resolution operates only on the
already-normalized tree. -/
theorem normalizeEmbeds_spec (env : ImgEnv) (t : Element) :
    NormRel t (normalizeEmbeds t) ∧
    processImages env t = rewriteAll isImg (embedOut env) (normalizeEmbeds t) := by
  refine ⟨?_, rfl⟩
  induction t using Element.indOn with
  | _ tg a st x c ih =>
    show NormRel _ (rewriteTop recognizedEmbed embedToImg (.mk tg a st x c))
    rw [rewriteTop_mk]
    by_cases hp : recognizedEmbed (.mk tg a st x c) = true
    · rw [if_pos hp]
      exact NormRel.replaced _ hp
    · rw [if_neg hp]
      have hpf : recognizedEmbed (.mk tg a st x c) = false := by
        revert hp
        cases recognizedEmbed (.mk tg a st x c) <;> simp
      exact NormRel.kept tg a st x c _ hpf
        (forall₂_map_of_mem _ c (fun e he => ih e he))

/-! ## Claim C7: sanitization of media nodes -/

/-- The positional replacement relation performed by the sanitizer: a media
node is replaced by the placeholder (media nested inside it is discarded with
the subtree); every other node is preserved with children related pointwise. -/
inductive SanRel : Element → Element → Prop where
  | replaced (e : Element) : isMedia e = true → SanRel e placeholderDiv
  | kept (t : String) (a s : List (String × String)) (x : String)
      (c c' : List Element) : isMedia (.mk t a s x c) = false →
      List.Forall₂ SanRel c c' → SanRel (.mk t a s x c) (.mk t a s x c')

def countNodes (p : Element → Bool) (t : Element) : Nat :=
  ((allNodes t).filter p).length

theorem no_media_in_sanitized :
    ∀ t : Element, ∀ e' ∈ allNodes (sanitizeElements t), isMedia e' = false := by
  apply Element.indOn
    (P := fun t => ∀ e' ∈ allNodes (sanitizeElements t), isMedia e' = false)
  intro tg a st x c ih e' he'
  rw [show sanitizeElements (Element.mk tg a st x c) =
    rewriteTop isMedia (fun _ => placeholderDiv) (.mk tg a st x c) from rfl,
    rewriteTop_mk] at he'
  by_cases hp : isMedia (.mk tg a st x c) = true
  · rw [if_pos hp] at he'
    rw [show allNodes placeholderDiv = [placeholderDiv] from by
      simp [placeholderDiv, allNodes_mk]] at he'
    simp only [List.mem_cons, List.not_mem_nil, or_false] at he'
    rw [he']
    decide
  · rw [if_neg hp] at he'
    rw [allNodes_mk] at he'
    rcases List.mem_cons.mp he' with he' | he'
    · rw [he']
      show isMedia (.mk tg a st x c) = false
      revert hp
      cases isMedia (.mk tg a st x c) <;> simp
    · obtain ⟨l, hl, hel⟩ := List.mem_flatten.mp he'
      obtain ⟨ce, hce, hlce⟩ := List.mem_map.mp hl
      obtain ⟨c0, hc0, hc0e⟩ := List.mem_map.mp hce
      rw [← hlce, ← hc0e] at hel
      exact ih c0 hc0 e' hel

def videoNested : Element := .mk "video" [] [] "" [.mk "audio" [] [] "" []]

def treeNested : Element := .mk "div" [] [] "" [videoNested]

/-- C7 counterexample: a tree holding two media nodes, one nested inside the
other, ends sanitization with a single placeholder — the nested `audio` node
is discarded together with its replaced `video` ancestor, not itself
"replaced exactly once by a placeholder". -/
theorem nested_media_counterexample :
    countNodes isMedia treeNested = 2 ∧
    sanitizeElements treeNested = .mk "div" [] [] "" [placeholderDiv] ∧
    countNodes (fun e => e.textOf == "[Media/Embed not supported in PDF Export]")
      (sanitizeElements treeNested) = 1 := by
  have h2 : sanitizeElements treeNested = .mk "div" [] [] "" [placeholderDiv] := by
    show rewriteTop isMedia (fun _ => placeholderDiv) (.mk "div" [] [] "" [videoNested]) = _
    rw [rewriteTop_mk, if_neg (by decide)]
    show Element.mk "div" [] [] "" [rewriteTop isMedia (fun _ => placeholderDiv)
      (.mk "video" [] [] "" [.mk "audio" [] [] "" []])] = _
    rw [rewriteTop_mk, if_pos (by decide)]
  refine ⟨?_, h2, ?_⟩
  · rw [countNodes, show allNodes treeNested =
      [treeNested, videoNested, .mk "audio" [] [] "" []] from by
        simp [treeNested, videoNested, allNodes_mk]]
    decide
  · rw [countNodes, h2, show allNodes (Element.mk "div" [] [] "" [placeholderDiv]) =
      [.mk "div" [] [] "" [placeholderDiv], placeholderDiv] from by
        simp [placeholderDiv, allNodes_mk]]
    decide

/-- C7 (amended): sanitization leaves no video, audio or iframe node in the
tree; every media node not nested inside another media node is replaced, in
place and unconditionally, by the fixed block placeholder (marker text,
dashed border, muted color, centered), while media nested inside a replaced
node is removed together with that subtree. -/
theorem sanitizeElements_spec (t : Element) :
    SanRel t (sanitizeElements t) ∧
    countNodes isMedia (sanitizeElements t) = 0 := by
  constructor
  · induction t using Element.indOn with
    | _ tg a st x c ih =>
      show SanRel _ (rewriteTop isMedia (fun _ => placeholderDiv) (.mk tg a st x c))
      rw [rewriteTop_mk]
      by_cases hp : isMedia (.mk tg a st x c) = true
      · rw [if_pos hp]
        exact SanRel.replaced _ hp
      · rw [if_neg hp]
        have hpf : isMedia (.mk tg a st x c) = false := by
          revert hp
          cases isMedia (.mk tg a st x c) <;> simp
        exact SanRel.kept tg a st x c _ hpf
          (forall₂_map_of_mem _ c (fun e he => ih e he))
  · rw [countNodes, List.length_eq_zero, List.filter_eq_nil_iff]
    intro e' he'
    rw [no_media_in_sanitized t e' he']
    decide

end AndroidPdf
